import Mathlib

/-!
Verification of the deterministic dataset partitioning subsystem of the
draugr repository (`src/draugr/numpy_utilities/datasets/splitting.py`).

Modelling conventions:
* Python strings are modelled as lists of bytes (`List Nat`, each < 256);
  the names and category labels that occur in the claims are ASCII, so the
  UTF-8 encoding step `bytes(s, "utf8")` is the identity on this model.
* Python `float` arithmetic on the percentage values is modelled exactly
  over `ℚ`; the claims under consideration are threshold comparisons that
  are insensitive to the (at most 2⁻⁵⁰-relative) float rounding.
* `sys.maxsize` is `2 ^ 63 - 1` (64-bit host, as the spec assumes).
* The global numpy random generator is modelled by explicit state passing:
  every operation that touches the generator takes the current state and
  returns the successor state.
-/

set_option maxRecDepth 1000000

namespace Draugr

/-! ## Byte strings and the `_nohash_` suffix stripping

The source computes `re.sub(r"_nohash_.*$", "", f"{c}{file_name.name}")`:
everything from the first occurrence of the eight characters `_nohash_`
(bytes 95 110 111 104 97 115 104 95) to the end of the *concatenated*
string is removed.  (None of the byte strings involved contain newline
bytes, so `.*$` reaches the end of the string.) -/

/-- Bytes of the pattern `_nohash_` (ASCII `_ n o h a s h _`). -/
def nohashPat : List Nat := [95, 110, 111, 104, 97, 115, 104, 95]

/-- Model of `re.sub(r"_nohash_.*$", "", s)`: drop everything from the first
occurrence of `_nohash_` onwards (the whole string is kept when the pattern
does not occur). -/
def stripNohash : List Nat → List Nat
  | [] => []
  | b :: bs => if nohashPat.isPrefixOf (b :: bs) then [] else b :: stripNohash bs

/-! ## SHA-1 (the `hashlib.sha1` call), over `Nat` with explicit `% 2^32` -/

/-- Truncation of a natural number to a 32-bit machine word. -/
def w32 (x : Nat) : Nat := x % 4294967296

/-- Left rotation of a 32-bit word by `n` places (for `x < 2 ^ 32`). -/
def rotl (n x : Nat) : Nat := w32 (x * 2 ^ n) + x / 2 ^ (32 - n)

/-- Big-endian 32-bit word from four bytes. -/
def wordOf (b0 b1 b2 b3 : Nat) : Nat := ((b0 * 256 + b1) * 256 + b2) * 256 + b3

/-- SHA-1 padding: append `0x80`, zero bytes up to 56 mod 64, then the
bit length as a big-endian 64-bit integer. -/
def sha1Pad (msg : List Nat) : List Nat :=
  msg ++ [128] ++ List.replicate ((119 - msg.length % 64) % 64) 0 ++
    [msg.length * 8 / 2 ^ 56 % 256, msg.length * 8 / 2 ^ 48 % 256,
     msg.length * 8 / 2 ^ 40 % 256, msg.length * 8 / 2 ^ 32 % 256,
     msg.length * 8 / 2 ^ 24 % 256, msg.length * 8 / 2 ^ 16 % 256,
     msg.length * 8 / 2 ^ 8 % 256, msg.length * 8 % 256]

/-- Group a padded message into big-endian 32-bit words. -/
def toWords : List Nat → List Nat
  | b0 :: b1 :: b2 :: b3 :: rest => wordOf b0 b1 b2 b3 :: toWords rest
  | _ => []

/-- Message-schedule extension: the accumulator holds the words produced so
far in reverse order, so `w[t-3]`, `w[t-8]`, `w[t-14]`, `w[t-16]` are at
positions 2, 7, 13, 15. -/
def schedAux : Nat → List Nat → List Nat
  | 0, acc => acc
  | f + 1, acc =>
      schedAux f
        ((rotl 1 ((((acc.getD 2 0).xor (acc.getD 7 0)).xor
          (acc.getD 13 0)).xor (acc.getD 15 0))) :: acc)

/-- Expansion of the 16 block words into the 80 schedule words. -/
def schedule (ws : List Nat) : List Nat := (schedAux 64 ws.reverse).reverse

/-- Round function of SHA-1 (choice / parity / majority / parity); the
bitwise complement of a 32-bit word `b` is `2 ^ 32 - 1 - b`. -/
def sha1F (t b c d : Nat) : Nat :=
  if t < 20 then (b.land c).lor ((4294967295 - b).land d)
  else if t < 40 then (b.xor c).xor d
  else if t < 60 then ((b.land c).lor (b.land d)).lor (c.land d)
  else (b.xor c).xor d

/-- Round constants of SHA-1. -/
def sha1K (t : Nat) : Nat :=
  if t < 20 then 1518500249 else if t < 40 then 1859775393
  else if t < 60 then 2400959708 else 3395469782

/-- One SHA-1 round on the register state `(a, b, c, d, e)` with round
index `t` and schedule word `wt`. -/
def sha1Step (st : Nat × Nat × Nat × Nat × Nat) (tw : Nat × Nat) :
    Nat × Nat × Nat × Nat × Nat :=
  match st, tw with
  | (a, b, c, d, e), (t, wt) =>
      (w32 (rotl 5 a + sha1F t b c d + e + sha1K t + wt), a, rotl 30 b, c, d)

/-- Compression of one 64-byte block into the running hash state. -/
def processBlock (h : Nat × Nat × Nat × Nat × Nat) (block : List Nat) :
    Nat × Nat × Nat × Nat × Nat :=
  match h, ((List.range 80).zip (schedule (toWords block))).foldl sha1Step h with
  | (h0, h1, h2, h3, h4), (a, b, c, d, e) =>
      (w32 (h0 + a), w32 (h1 + b), w32 (h2 + c), w32 (h3 + d), w32 (h4 + e))

/-- Iteration of `processBlock` over the 64-byte blocks of the padded
message; the fuel argument (instantiated with the message length) makes the
recursion structural. -/
def sha1Blocks (fuel : Nat) (h : Nat × Nat × Nat × Nat × Nat) (l : List Nat) :
    Nat × Nat × Nat × Nat × Nat :=
  match fuel, l with
  | 0, _ => h
  | _, [] => h
  | f + 1, l => sha1Blocks f (processBlock h (l.take 64)) (l.drop 64)

/-- Model of `int(hashlib.sha1(b_rep).hexdigest(), 16)`: the SHA-1 digest of
a byte string, read as a (big-endian) 160-bit integer. -/
def sha1Int (msg : List Nat) : Nat :=
  match sha1Blocks (sha1Pad msg).length
      (1732584193, 4023233417, 2562383102, 271733878, 3285377520)
      (sha1Pad msg) with
  | (h0, h1, h2, h3, h4) =>
      (((h0 * 2 ^ 32 + h1) * 2 ^ 32 + h2) * 2 ^ 32 + h3) * 2 ^ 32 + h4

/-! ## The content-hash splitter `train_valid_test_split` -/

/-- Model of `sys.maxsize` on a 64-bit host. -/
def maxsize : Nat := 2 ^ 63 - 1

/-- Model of `b_rep = bytes(re.sub(r"_nohash_.*$", "", f"{c}{file_name.name}"), "utf8")`:
the stripping is applied to the concatenation of the category label and the
item name. -/
def bRep (c name : List Nat) : List Nat := stripNohash (c ++ name)

/-- Model of `percentage_hash = (int(hashlib.sha1(b_rep).hexdigest(), 16)
% (sys.maxsize + 1)) * (100.0 / sys.maxsize)`, with the float arithmetic
carried out exactly in `ℚ`. -/
def percentageHash (b : List Nat) : ℚ :=
  ((sha1Int b % (maxsize + 1) : Nat) : ℚ) * (100 / (maxsize : ℚ))

/-- The `Split` enumeration of the source. -/
inductive Split
  | Training
  | Validation
  | Testing
  deriving DecidableEq, Repr

/-- The per-category value `{Split.Training: training_images,
Split.Validation: validation_images, Split.Testing: testing_images}`
built by `train_valid_test_split`. -/
structure SplitRecord where
  training : List (List Nat)
  validation : List (List Nat)
  testing : List (List Nat)
  deriving DecidableEq, Repr

/-- Model of the inner loop of `train_valid_test_split` over the items of
one category: each item is appended (in iteration order) to exactly one of
the three lists, following the source's nested conditionals
`if percentage_hash < validation_percentage + testing_percentage:
 if percentage_hash < testing_percentage: testing else validation
 else: training`. -/
def splitItems (validationPercentage testingPercentage : ℚ) (c : List Nat) :
    List (List Nat) → SplitRecord
  | [] => ⟨[], [], []⟩
  | n :: rest =>
      let r := splitItems validationPercentage testingPercentage c rest
      if percentageHash (bRep c n) < validationPercentage + testingPercentage then
        if percentageHash (bRep c n) < testingPercentage then
          ⟨r.training, r.validation, n :: r.testing⟩
        else
          ⟨r.training, n :: r.validation, r.testing⟩
      else
        ⟨n :: r.training, r.validation, r.testing⟩

/-- Model of `train_valid_test_split(categories, validation_percentage,
testing_percentage)`; the ordered dictionary of categories is an
association list, processed in order. -/
def train_valid_test_split (categories : List (List Nat × List (List Nat)))
    (validationPercentage testingPercentage : ℚ) :
    List (List Nat × SplitRecord) :=
  categories.map fun p =>
    (p.1, splitItems validationPercentage testingPercentage p.1 p.2)

/-- Decision structure of the item assignment, extracted from the nested
conditionals of the source (`p` is the item's pseudo-percentage). -/
def assignSplit (validationPercentage testingPercentage p : ℚ) : Split :=
  if p < validationPercentage + testingPercentage then
    if p < testingPercentage then Split.Testing else Split.Validation
  else Split.Training

/-! ## The proportional indexer `SplitIndexer`

The constructor computes `normalised_split = splits / sum(splits)` and
`training_num, validation_num, testing_num = floor(normalised_split * n)
.astype(int)`; the float arithmetic is modelled exactly over `ℚ` (the
all-zero-weights NaN path is modelled separately below for claim C6). -/

/-- State of a `SplitIndexer` instance after `__init__` (normal path, the
weight sum is nonzero). -/
structure SplitIndexer where
  total_num : Nat
  training_percentage : ℚ
  validation_percentage : ℚ
  testing_percentage : ℚ
  training_num : Int
  validation_num : Int
  testing_num : Int
  deriving DecidableEq, Repr

/-- Model of `SplitIndexer.unnormalised` (with the default `floored=True`):
`floor(normalised * num).astype(int)` componentwise. -/
def unnormalised (normalised : ℚ × ℚ × ℚ) (num : Nat) : Int × Int × Int :=
  (⌊normalised.1 * num⌋, ⌊normalised.2.1 * num⌋, ⌊normalised.2.2 * num⌋)

/-- Model of `SplitIndexer.__init__(dataset_length, training, validation,
testing)` on the normal path. -/
def mkSplitIndexer (datasetLength : Nat) (training validation testing : ℚ) :
    SplitIndexer :=
  let s := training + validation + testing
  let normalised : ℚ × ℚ × ℚ := (training / s, validation / s, testing / s)
  let nums := unnormalised normalised datasetLength
  ⟨datasetLength, normalised.1, normalised.2.1, normalised.2.2,
   nums.1, nums.2.1, nums.2.2⟩

/-! Python list slicing with possibly negative bounds. -/

/-- Normalisation of a Python slice index against a list length: a
non-negative index is clamped to the length, a negative index counts from
the end (clamped to 0). -/
def pyIdx (len : Nat) (i : Int) : Nat :=
  if 0 ≤ i then min i.toNat len else len - (-i).toNat

/-- Model of the Python slice `l[a:b]`. -/
def pySlice {α : Type} (l : List α) (a b : Int) : List α :=
  (l.take (pyIdx l.length b)).drop (pyIdx l.length a)

/-- Model of the Python slice `l[a:]`. -/
def pySliceFrom {α : Type} (l : List α) (a : Int) : List α :=
  l.drop (pyIdx l.length a)

/-- Model of `select_train_indices`: `ind[: self.training_num]`. -/
def SplitIndexer.select_train_indices (idx : SplitIndexer) (ind : List Nat) :
    List Nat :=
  pySlice ind 0 idx.training_num

/-- Model of `select_validation_indices`: `ind[self.training_num :
-self.testing_num]` when both counts are truthy, `ind[self.training_num :]`
when only `validation_num` is, `[]` otherwise. -/
def SplitIndexer.select_validation_indices (idx : SplitIndexer)
    (ind : List Nat) : List Nat :=
  if idx.validation_num ≠ 0 then
    if idx.testing_num ≠ 0 then pySlice ind idx.training_num (-idx.testing_num)
    else pySliceFrom ind idx.training_num
  else []

/-- Model of `select_testing_indices`: `ind[-self.testing_num :]` when
`testing_num` is truthy, `[]` otherwise. -/
def SplitIndexer.select_testing_indices (idx : SplitIndexer) (ind : List Nat) :
    List Nat :=
  if idx.testing_num ≠ 0 then pySliceFrom ind (-idx.testing_num) else []

/-! Model of the external numpy global random generator.  The subsystem
uses it only through `numpy.random.seed` and `numpy.random.permutation`;
the claims depend only on (a) both being deterministic functions of the
generator state and (b) `permutation(n)` producing a permutation of
`range(n)` while advancing the state.  The concrete mixing function below
is an arbitrary representative with those properties. -/

/-- State of the global numpy random generator. -/
abbrev RngState := Nat

/-- Model of `numpy.random.seed(seed)`: the global state becomes a function
of `seed` alone. -/
def npSeed (seed : Nat) : RngState := seed

/-- Model of `numpy.random.permutation(n).tolist()`: a permutation of
`range(n)` determined by the current state, plus the advanced state. -/
def npPermutation (st : RngState) (n : Nat) : List Nat × RngState :=
  ((List.range n).rotate st, st * 6364136223846793005 + 1442695040888963407)

/-- The dictionary `{Split.Training: ..., Split.Validation: ...,
Split.Testing: ...}` returned by `shuffled_indices`. -/
structure ShuffledSplits where
  training : List Nat
  validation : List Nat
  testing : List Nat
  deriving DecidableEq, Repr

/-- Model of `SplitIndexer.shuffled_indices`: one (unseeded) permutation of
`range(total_num)` is drawn from the global generator and sliced three
ways. -/
def SplitIndexer.shuffled_indices (idx : SplitIndexer) (st : RngState) :
    ShuffledSplits × RngState :=
  let pr := npPermutation st idx.total_num
  (⟨idx.select_train_indices pr.1, idx.select_validation_indices pr.1,
    idx.select_testing_indices pr.1⟩, pr.2)

/-- Result of a Python call: either a returned value or a propagated
exception. -/
inductive PyResult (α : Type)
  | ok (val : α)
  | raised
  deriving DecidableEq, Repr

/-- Argument domain of `select_shuffled_split_indices`: the three `Split`
tags, `None`, and `invalid` standing for every other Python value. -/
inductive SplitArg
  | training
  | validation
  | testing
  | noneArg
  | invalid
  deriving DecidableEq, Repr

/-- Model of `SplitIndexer.select_shuffled_split_indices(split, seed)`:
`numpy.random.seed(seed)` replaces the global generator state (the incoming
state is discarded), one permutation is drawn, and the requested slice is
returned; every argument outside {Training, Validation, Testing, None}
raises `NotImplementedError`. -/
def SplitIndexer.select_shuffled_split_indices (idx : SplitIndexer)
    (split : SplitArg) (seed : Nat) (_st : RngState) :
    PyResult (List Nat) × RngState :=
  let st0 := npSeed seed
  let pr := npPermutation st0 idx.total_num
  match split with
  | SplitArg.training => (PyResult.ok (idx.select_train_indices pr.1), pr.2)
  | SplitArg.validation =>
      (PyResult.ok (idx.select_validation_indices pr.1), pr.2)
  | SplitArg.testing => (PyResult.ok (idx.select_testing_indices pr.1), pr.2)
  | SplitArg.noneArg => (PyResult.ok pr.1, pr.2)
  | SplitArg.invalid => (PyResult.raised, pr.2)

/-! ## Float-level model of `__init__` (for claim C6)

numpy float division by a zero sum does not raise: it emits a
`RuntimeWarning` and produces `nan` (for `0/0`) or `±inf`; `numpy.floor`
of `nan` is `nan`, and `.astype(int)` of `nan` is an unspecified
platform-dependent integer (again only a warning).  No statement of
`__init__` can raise, so the construction always returns a value. -/

/-- Model of a numpy `float64` value as used in `__init__` (exact rational,
or one of the non-finite values). -/
inductive PyFloat
  | val (q : ℚ)
  | nan
  | inf
  | ninf
  deriving DecidableEq, Repr

/-- Model of numpy elementwise float division: division by zero warns and
yields `nan` or `±inf` instead of raising. -/
def npDiv (a b : ℚ) : PyFloat :=
  if b = 0 then (if a = 0 then PyFloat.nan else if 0 < a then PyFloat.inf
    else PyFloat.ninf)
  else PyFloat.val (a / b)

/-- Model of `numpy.floor(x * num).astype(int)` on one component: defined
for finite values, an unspecified platform-dependent integer (modelled as
`none`) for `nan` and `±inf`. -/
def npFloorAstypeInt (x : PyFloat) (num : Nat) : Option Int :=
  match x with
  | PyFloat.val q => some ⌊q * num⌋
  | _ => none

/-- Attribute state produced by `SplitIndexer.__init__` in the float-level
model. -/
structure SplitIndexerInit where
  total_num : Nat
  normalised : PyFloat × PyFloat × PyFloat
  nums : Option Int × Option Int × Option Int
  deriving DecidableEq, Repr

/-- Float-level model of `SplitIndexer.__init__`: every statement of the
constructor body (array construction, division, unpacking, floor, cast)
completes, so the result is always `ok`. -/
def SplitIndexer.init (datasetLength : Nat)
    (training validation testing : ℚ) : PyResult SplitIndexerInit :=
  let s := training + validation + testing
  PyResult.ok
    { total_num := datasetLength
      normalised := (npDiv training s, npDiv validation s, npDiv testing s)
      nums := (npFloorAstypeInt (npDiv training s) datasetLength,
               npFloorAstypeInt (npDiv validation s) datasetLength,
               npFloorAstypeInt (npDiv testing s) datasetLength) }

/-! ## The projection `select_split` -/

/-- Model of `select_split(data_cat_split, split)`: for each category (in
order) the inner mapping is indexed with the requested split
(`v[split]`, a `KeyError` — modelled as `raised` — when the key is
absent) and the items are appended in order to the category's output
list. -/
def select_split (data : List (List Nat × List (Split × List (List Nat))))
    (split : Split) : PyResult (List (List Nat × List (List Nat))) :=
  match data with
  | [] => PyResult.ok []
  | (k, v) :: rest =>
      match v.lookup split, select_split rest split with
      | some items, PyResult.ok r => PyResult.ok ((k, items) :: r)
      | _, _ => PyResult.raised

/-! ## Helper lemmas -/

theorem isPrefixOf_append_self (p l : List Nat) : p.isPrefixOf (p ++ l) = true := by
  induction p with
  | nil => exact List.isPrefixOf_nil_left
  | cons a as ih => simp [List.isPrefixOf_cons₂, ih]

/-- Whether `p` is a prefix of `l` depends only on the first `p.length`
elements of `l`. -/
theorem isPrefixOf_congr (p : List Nat) :
    ∀ l1 l2 : List Nat, l1.take p.length = l2.take p.length →
      p.isPrefixOf l1 = p.isPrefixOf l2 := by
  induction p with
  | nil =>
      intro l1 l2 _
      rw [List.isPrefixOf_nil_left, List.isPrefixOf_nil_left]
  | cons a as ih =>
      intro l1 l2 h
      cases l1 with
      | nil =>
          cases l2 with
          | nil => rfl
          | cons b bs => simp [List.length_cons, List.take_succ_cons] at h
      | cons b bs =>
          cases l2 with
          | nil => simp [List.length_cons, List.take_succ_cons] at h
          | cons c cs =>
              simp only [List.length_cons, List.take_succ_cons,
                List.cons.injEq] at h
              rw [List.isPrefixOf_cons₂, List.isPrefixOf_cons₂, h.1,
                ih bs cs h.2]

theorem take_append_congr (w : List Nat) :
    ∀ (v1 v2 : List Nat) (k : Nat), k ≤ w.length →
      (w ++ v1).take k = (w ++ v2).take k := by
  induction w with
  | nil =>
      intro v1 v2 k hk
      have hk0 : k = 0 := by simpa using hk
      subst hk0
      rfl
  | cons x w' ih =>
      intro v1 v2 k hk
      cases k with
      | zero => rfl
      | succ k' =>
          simp only [List.cons_append, List.take_succ_cons]
          rw [ih v1 v2 k' (by simpa using hk)]

/-- Everything after the first occurrence of `_nohash_` is irrelevant to
the stripped string: the two ways of completing `u ++ "_nohash_"` strip
identically. -/
theorem stripNohash_indep (u : List Nat) :
    ∀ v1 v2 : List Nat,
      stripNohash (u ++ (nohashPat ++ v1)) = stripNohash (u ++ (nohashPat ++ v2)) := by
  induction u with
  | nil =>
      intro v1 v2
      have h1 : nohashPat.isPrefixOf
          (95 :: ([110, 111, 104, 97, 115, 104, 95] ++ v1)) = true :=
        isPrefixOf_append_self nohashPat v1
      have h2 : nohashPat.isPrefixOf
          (95 :: ([110, 111, 104, 97, 115, 104, 95] ++ v2)) = true :=
        isPrefixOf_append_self nohashPat v2
      show stripNohash (95 :: ([110, 111, 104, 97, 115, 104, 95] ++ v1)) =
        stripNohash (95 :: ([110, 111, 104, 97, 115, 104, 95] ++ v2))
      rw [stripNohash, stripNohash, if_pos h1, if_pos h2]
  | cons x u' ih =>
      intro v1 v2
      simp only [List.cons_append]
      rw [stripNohash, stripNohash]
      have htake : (u' ++ (nohashPat ++ v1)).take 7 =
          (u' ++ (nohashPat ++ v2)).take 7 := by
        rw [← List.append_assoc, ← List.append_assoc]
        exact take_append_congr (u' ++ nohashPat) v1 v2 7
          (by simp [nohashPat])
      have hcond : nohashPat.isPrefixOf (x :: (u' ++ (nohashPat ++ v1))) =
          nohashPat.isPrefixOf (x :: (u' ++ (nohashPat ++ v2))) := by
        apply isPrefixOf_congr
        show (x :: (u' ++ (nohashPat ++ v1))).take 8 =
          (x :: (u' ++ (nohashPat ++ v2))).take 8
        rw [List.take_succ_cons, List.take_succ_cons, htake]
      rw [hcond]
      by_cases hc : nohashPat.isPrefixOf (x :: (u' ++ (nohashPat ++ v2))) = true
      · rw [if_pos hc, if_pos hc]
      · rw [if_neg hc, if_neg hc, ih v1 v2]

/-- The three lists built by the inner loop of `train_valid_test_split`
are the filters of the item list by the decision function. -/
theorem splitItems_eq_filter (v t : ℚ) (c : List Nat) :
    ∀ l : List (List Nat),
      splitItems v t c l =
        ⟨l.filter fun n => assignSplit v t (percentageHash (bRep c n)) == Split.Training,
         l.filter fun n => assignSplit v t (percentageHash (bRep c n)) == Split.Validation,
         l.filter fun n => assignSplit v t (percentageHash (bRep c n)) == Split.Testing⟩ := by
  intro l
  induction l with
  | nil => rfl
  | cons n rest ih =>
      by_cases h1 : percentageHash (bRep c n) < v + t
      · by_cases h2 : percentageHash (bRep c n) < t
        · simp [splitItems, assignSplit, h1, h2, ih, List.filter_cons]
        · simp [splitItems, assignSplit, h1, h2, ih, List.filter_cons]
      · simp [splitItems, assignSplit, h1, ih, List.filter_cons]

theorem mem_splitItems_training (v t : ℚ) (c x : List Nat)
    (l : List (List Nat)) :
    x ∈ (splitItems v t c l).training ↔
      x ∈ l ∧ assignSplit v t (percentageHash (bRep c x)) = Split.Training := by
  rw [splitItems_eq_filter]
  simp [List.mem_filter]

theorem mem_splitItems_validation (v t : ℚ) (c x : List Nat)
    (l : List (List Nat)) :
    x ∈ (splitItems v t c l).validation ↔
      x ∈ l ∧ assignSplit v t (percentageHash (bRep c x)) = Split.Validation := by
  rw [splitItems_eq_filter]
  simp [List.mem_filter]

theorem mem_splitItems_testing (v t : ℚ) (c x : List Nat)
    (l : List (List Nat)) :
    x ∈ (splitItems v t c l).testing ↔
      x ∈ l ∧ assignSplit v t (percentageHash (bRep c x)) = Split.Testing := by
  rw [splitItems_eq_filter]
  simp [List.mem_filter]

/-- The pseudo-percentage produced by the hash never exceeds 100: the
residue is at most `maxsize` and the scale factor is `100 / maxsize`. -/
theorem percentageHash_le_100 (b : List Nat) : percentageHash b ≤ 100 := by
  unfold percentageHash
  have hm : (sha1Int b % (maxsize + 1) : Nat) ≤ maxsize :=
    Nat.lt_succ_iff.mp (Nat.mod_lt _ (Nat.succ_pos maxsize))
  have hmq : ((sha1Int b % (maxsize + 1) : Nat) : ℚ) ≤ (maxsize : ℚ) := by
    exact_mod_cast hm
  have hpos : (0 : ℚ) < (maxsize : ℚ) := by norm_num [maxsize]
  calc ((sha1Int b % (maxsize + 1) : Nat) : ℚ) * (100 / (maxsize : ℚ))
      ≤ (maxsize : ℚ) * (100 / (maxsize : ℚ)) := by
        apply mul_le_mul_of_nonneg_right hmq
        positivity
    _ = 100 := by field_simp

/-- Evaluation helper: once the digest residue is known, the
pseudo-percentage is an explicit rational. -/
theorem percentageHash_eval (b : List Nat) (m : Nat)
    (h : sha1Int b % (maxsize + 1) = m) :
    percentageHash b = (m : ℚ) * (100 / 9223372036854775807) := by
  unfold percentageHash
  rw [h]
  norm_num [maxsize]

/-! ## Helper lemmas for the proportional indexer -/

theorem npPermutation_length (st : RngState) (n : Nat) :
    (npPermutation st n).1.length = n := by
  simp [npPermutation, List.length_rotate, List.length_range]

theorem npPermutation_nodup (st : RngState) (n : Nat) :
    (npPermutation st n).1.Nodup := by
  simp [npPermutation, List.nodup_rotate, List.nodup_range]

theorem npPermutation_perm (st : RngState) (n : Nat) :
    List.Perm (npPermutation st n).1 (List.range n) :=
  List.rotate_perm (List.range n) st

theorem take_min {α : Type} (l : List α) (k : Nat) :
    l.take (min k l.length) = l.take k := by
  rcases le_total k l.length with h | h
  · rw [min_eq_left h]
  · rw [min_eq_right h, List.take_length, List.take_of_length_le h]

theorem drop_min_of_le {α : Type} (l : List α) (k len : Nat)
    (h : l.length ≤ len) : l.drop (min k len) = l.drop k := by
  rcases le_total k len with hk | hk
  · rw [min_eq_left hk]
  · rw [min_eq_right hk, List.drop_eq_nil_of_le h,
      List.drop_eq_nil_of_le (h.trans hk)]

theorem pyIdx_zero (len : Nat) : pyIdx len 0 = 0 := by
  simp [pyIdx]

theorem pyIdx_nonneg (len : Nat) (i : Int) (h : 0 ≤ i) :
    pyIdx len i = min i.toNat len := by
  simp [pyIdx, h]

theorem pyIdx_neg (len : Nat) (i : Int) (h : 0 < i) :
    pyIdx len (-i) = len - i.toNat := by
  have h' : ¬ (0 ≤ -i) := by omega
  simp [pyIdx, h']

/-- With a non-negative count, `ind[: training_num]` is a `take`. -/
theorem select_train_eq (idx : SplitIndexer) (ind : List Nat)
    (h : 0 ≤ idx.training_num) :
    idx.select_train_indices ind = ind.take idx.training_num.toNat := by
  show (ind.take (pyIdx ind.length idx.training_num)).drop (pyIdx ind.length 0) = _
  rw [pyIdx_zero, pyIdx_nonneg _ _ h, List.drop_zero, take_min]

/-- With non-negative counts, the validation slice is the whole middle
block between the training prefix and the testing suffix (empty when
`validation_num` is zero). -/
theorem select_validation_eq (idx : SplitIndexer) (ind : List Nat)
    (htr : 0 ≤ idx.training_num) (hte : 0 ≤ idx.testing_num) :
    idx.select_validation_indices ind =
      if idx.validation_num = 0 then []
      else (ind.take (ind.length - idx.testing_num.toNat)).drop
        idx.training_num.toNat := by
  by_cases hva : idx.validation_num = 0
  · simp [SplitIndexer.select_validation_indices, hva]
  · rw [if_neg hva]
    unfold SplitIndexer.select_validation_indices
    rw [if_pos hva]
    by_cases hte0 : idx.testing_num = 0
    · rw [if_neg (by simpa using hte0)]
      unfold pySliceFrom
      rw [pyIdx_nonneg _ _ htr, hte0]
      show ind.drop (min idx.training_num.toNat ind.length) = _
      rw [drop_min_of_le _ _ _ le_rfl]
      simp [List.take_length]
    · rw [if_pos hte0]
      unfold pySlice
      rw [pyIdx_nonneg _ _ htr, pyIdx_neg _ _ (by omega)]
      exact drop_min_of_le _ _ _ (by
        rw [List.length_take]
        exact min_le_right _ _)

/-- With a non-negative count, the testing slice is the final
`testing_num` entries (empty when `testing_num` is zero). -/
theorem select_testing_eq (idx : SplitIndexer) (ind : List Nat)
    (hte : 0 ≤ idx.testing_num) :
    idx.select_testing_indices ind =
      if idx.testing_num = 0 then []
      else ind.drop (ind.length - idx.testing_num.toNat) := by
  by_cases hte0 : idx.testing_num = 0
  · simp [SplitIndexer.select_testing_indices, hte0]
  · rw [if_neg hte0]
    unfold SplitIndexer.select_testing_indices
    rw [if_pos hte0]
    unfold pySliceFrom
    rw [pyIdx_neg _ _ (by omega)]

theorem mk_training_num (n : Nat) (tr va te : ℚ) :
    (mkSplitIndexer n tr va te).training_num = ⌊tr / (tr + va + te) * n⌋ := rfl

theorem mk_validation_num (n : Nat) (tr va te : ℚ) :
    (mkSplitIndexer n tr va te).validation_num = ⌊va / (tr + va + te) * n⌋ := rfl

theorem mk_testing_num (n : Nat) (tr va te : ℚ) :
    (mkSplitIndexer n tr va te).testing_num = ⌊te / (tr + va + te) * n⌋ := rfl

theorem mk_total_num (n : Nat) (tr va te : ℚ) :
    (mkSplitIndexer n tr va te).total_num = n := rfl

/-- The three floored counts never exceed the dataset length (their exact
rational counterparts sum to `n`). -/
theorem mk_counts_sum_le (n : Nat) (tr va te : ℚ) (hs : 0 < tr + va + te) :
    (mkSplitIndexer n tr va te).training_num +
      (mkSplitIndexer n tr va te).validation_num +
      (mkSplitIndexer n tr va te).testing_num ≤ (n : Int) := by
  rw [mk_training_num, mk_validation_num, mk_testing_num]
  have hsum : tr / (tr + va + te) * n + va / (tr + va + te) * n +
      te / (tr + va + te) * n = (n : ℚ) := by
    field_simp
    ring
  have h1 : (⌊tr / (tr + va + te) * n⌋ : ℚ) ≤ tr / (tr + va + te) * n :=
    Int.floor_le _
  have h2 : (⌊va / (tr + va + te) * n⌋ : ℚ) ≤ va / (tr + va + te) * n :=
    Int.floor_le _
  have h3 : (⌊te / (tr + va + te) * n⌋ : ℚ) ≤ te / (tr + va + te) * n :=
    Int.floor_le _
  have : ((⌊tr / (tr + va + te) * n⌋ + ⌊va / (tr + va + te) * n⌋ +
      ⌊te / (tr + va + te) * n⌋ : Int) : ℚ) ≤ (n : ℚ) := by
    push_cast
    linarith
  exact_mod_cast this

/-- With non-negative weights the floored counts are non-negative. -/
theorem mk_counts_nonneg (n : Nat) (tr va te : ℚ) (htr : 0 ≤ tr)
    (hva : 0 ≤ va) (hte : 0 ≤ te) (hs : 0 < tr + va + te) :
    0 ≤ (mkSplitIndexer n tr va te).training_num ∧
      0 ≤ (mkSplitIndexer n tr va te).validation_num ∧
      0 ≤ (mkSplitIndexer n tr va te).testing_num := by
  rw [mk_training_num, mk_validation_num, mk_testing_num]
  refine ⟨Int.floor_nonneg.mpr (by positivity),
    Int.floor_nonneg.mpr (by positivity),
    Int.floor_nonneg.mpr (by positivity)⟩

theorem sum_pos_of_not_all_zero (tr va te : ℚ) (htr : 0 ≤ tr) (hva : 0 ≤ va)
    (hte : 0 ≤ te) (hne : ¬(tr = 0 ∧ va = 0 ∧ te = 0)) :
    0 < tr + va + te := by
  rcases lt_or_eq_of_le (by positivity : (0 : ℚ) ≤ tr + va + te) with h | h
  · exact h
  · exact absurd ⟨by linarith, by linarith, by linarith⟩ hne

/-! Sanity checks of the SHA-1 model against the published test vectors
(`sha1("abc")` and `sha1("")`). -/

theorem sha1Int_abc :
    sha1Int [97, 98, 99] = 0xa9993e364706816aba3e25717850c26c9cd0d89d := by
  decide

theorem sha1Int_nil :
    sha1Int [] = 0xda39a3ee5e6b4b0d3255bfef95601890afd80709 := by
  decide

/-! ## Claim C3 -/

/-- C3: for every dataset length `n ≥ 0` and any three non-negative
weights not all zero, each per-split count of `SplitIndexer` equals
`floor(weight / sum(weights) * n)` and the three counts sum to at most
`n`; in particular `SplitIndexer(100, 0.7, 0.2, 0.1)` yields counts
`(70, 20, 10)`. -/
theorem claim_C3 :
    (∀ (n : Nat) (tr va te : ℚ), 0 ≤ tr → 0 ≤ va → 0 ≤ te →
      ¬(tr = 0 ∧ va = 0 ∧ te = 0) →
      (mkSplitIndexer n tr va te).training_num = ⌊tr / (tr + va + te) * n⌋ ∧
      (mkSplitIndexer n tr va te).validation_num = ⌊va / (tr + va + te) * n⌋ ∧
      (mkSplitIndexer n tr va te).testing_num = ⌊te / (tr + va + te) * n⌋ ∧
      (mkSplitIndexer n tr va te).training_num +
        (mkSplitIndexer n tr va te).validation_num +
        (mkSplitIndexer n tr va te).testing_num ≤ (n : Int)) ∧
    (mkSplitIndexer 100 (7/10) (2/10) (1/10)).training_num = 70 ∧
    (mkSplitIndexer 100 (7/10) (2/10) (1/10)).validation_num = 20 ∧
    (mkSplitIndexer 100 (7/10) (2/10) (1/10)).testing_num = 10 := by
  refine ⟨fun n tr va te htr hva hte hne => ?_, ?_, ?_, ?_⟩
  · have hs := sum_pos_of_not_all_zero tr va te htr hva hte hne
    exact ⟨mk_training_num n tr va te, mk_validation_num n tr va te,
      mk_testing_num n tr va te, mk_counts_sum_le n tr va te hs⟩
  · rw [mk_training_num]
    rw [Int.floor_eq_iff]
    norm_num
  · rw [mk_validation_num]
    rw [Int.floor_eq_iff]
    norm_num
  · rw [mk_testing_num]
    rw [Int.floor_eq_iff]
    norm_num

/-- Witness for C3 at the concrete input `(12, 1/2, 1/3, 1/6)`. -/
theorem claim_C3_witness :
    (0 : ℚ) ≤ 1/2 ∧ (0 : ℚ) ≤ 1/3 ∧ (0 : ℚ) ≤ 1/6 ∧
      ¬((1/2 : ℚ) = 0 ∧ (1/3 : ℚ) = 0 ∧ (1/6 : ℚ) = 0) ∧
      ((mkSplitIndexer 12 (1/2) (1/3) (1/6)).training_num =
          ⌊(1/2 : ℚ) / (1/2 + 1/3 + 1/6) * (12 : Nat)⌋ ∧
        (mkSplitIndexer 12 (1/2) (1/3) (1/6)).validation_num =
          ⌊(1/3 : ℚ) / (1/2 + 1/3 + 1/6) * (12 : Nat)⌋ ∧
        (mkSplitIndexer 12 (1/2) (1/3) (1/6)).testing_num =
          ⌊(1/6 : ℚ) / (1/2 + 1/3 + 1/6) * (12 : Nat)⌋ ∧
        (mkSplitIndexer 12 (1/2) (1/3) (1/6)).training_num +
          (mkSplitIndexer 12 (1/2) (1/3) (1/6)).validation_num +
          (mkSplitIndexer 12 (1/2) (1/3) (1/6)).testing_num ≤ (12 : Int)) :=
  ⟨by norm_num, by norm_num, by norm_num, by norm_num,
    claim_C3.1 12 (1/2) (1/3) (1/6) (by norm_num) (by norm_num) (by norm_num)
      (by norm_num)⟩

/-! ## Claim C4 -/

/-- C4: `select_shuffled_split_indices` is reproducible — its returned
value does not depend on the incoming global generator state (the reseed
overwrites it), so calling it twice with the same seed, in particular back
to back, yields identical results. -/
theorem claim_C4 (idx : SplitIndexer) (split : SplitArg) (seed : Nat)
    (st1 st2 : RngState) :
    (idx.select_shuffled_split_indices split seed st1).1 =
      (idx.select_shuffled_split_indices split seed st2).1 ∧
    (idx.select_shuffled_split_indices split seed
        (idx.select_shuffled_split_indices split seed st1).2).1 =
      (idx.select_shuffled_split_indices split seed st1).1 := by
  cases split <;> exact ⟨rfl, rfl⟩

/-! ## Claim C6 -/

/-- C6 counterexample: constructing a `SplitIndexer` with all three
weights zero does not raise — `__init__` completes normally (numpy float
division by zero only warns), returning an instance whose normalised
proportions are NaN and whose integer counts are unspecified. -/
theorem claim_C6_counterexample :
    SplitIndexer.init 5 0 0 0 =
      PyResult.ok ⟨5, (PyFloat.nan, PyFloat.nan, PyFloat.nan),
        (none, none, none)⟩ := by
  norm_num [SplitIndexer.init, npDiv, npFloorAstypeInt]

/-- C6 amended: constructing a `SplitIndexer` with all three weights zero
raises nothing; the construction completes for every dataset length, with
NaN normalised proportions (numpy emits a `RuntimeWarning` for the zero
division) and platform-unspecified integer counts. -/
theorem claim_C6_amended (n : Nat) :
    SplitIndexer.init n 0 0 0 =
      PyResult.ok ⟨n, (PyFloat.nan, PyFloat.nan, PyFloat.nan),
        (none, none, none)⟩ := by
  norm_num [SplitIndexer.init, npDiv, npFloorAstypeInt]

/-! ## Claim C8 -/

/-- C8: `select_shuffled_split_indices` returns the requested split's
slice of the freshly seeded permutation for each of the three split tags,
returns the full permutation of `range(dataset_length)` for `None`, and
raises `NotImplementedError` for every other argument value. -/
theorem claim_C8 (idx : SplitIndexer) (seed : Nat) (st : RngState) :
    (idx.select_shuffled_split_indices SplitArg.training seed st).1 =
      PyResult.ok (idx.select_train_indices
        (npPermutation (npSeed seed) idx.total_num).1) ∧
    (idx.select_shuffled_split_indices SplitArg.validation seed st).1 =
      PyResult.ok (idx.select_validation_indices
        (npPermutation (npSeed seed) idx.total_num).1) ∧
    (idx.select_shuffled_split_indices SplitArg.testing seed st).1 =
      PyResult.ok (idx.select_testing_indices
        (npPermutation (npSeed seed) idx.total_num).1) ∧
    ((idx.select_shuffled_split_indices SplitArg.noneArg seed st).1 =
      PyResult.ok (npPermutation (npSeed seed) idx.total_num).1 ∧
      List.Perm (npPermutation (npSeed seed) idx.total_num).1
        (List.range idx.total_num)) ∧
    (idx.select_shuffled_split_indices SplitArg.invalid seed st).1 =
      PyResult.raised :=
  ⟨rfl, rfl, rfl, ⟨rfl, npPermutation_perm _ _⟩, rfl⟩

/-! ## Claim C7 -/

theorem list_disjoint_nil_right {α : Type} (l : List α) :
    l.Disjoint ([] : List α) := fun _ _ h => absurd h (List.not_mem_nil _)

theorem drop_take_subset_drop {α : Type} (l : List α) (a b : Nat) :
    (l.take b).drop a ⊆ l.drop a := by
  rcases le_total a b with hab | hab
  · have he : (l.drop a).take (b - a) = (l.take b).drop a := by
      have h := List.take_drop a (b - a) l
      rw [show a + (b - a) = b from by omega] at h
      exact h
    rw [← he]
    exact List.take_subset _ _
  · rw [List.drop_eq_nil_of_le (by
      rw [List.length_take]
      exact le_trans (min_le_left _ _) hab)]
    exact List.nil_subset _

/-- C7: under the constructor contract (non-negative weights, not all
zero), `shuffled_indices` slices one single permutation of `range(n)` into
three pairwise disjoint contiguous blocks: the first `training_num`
entries, the middle block up to `n - testing_num` when `validation_num` is
nonzero, and the final `testing_num` entries when `testing_num` is
nonzero. -/
theorem claim_C7 (n : Nat) (tr va te : ℚ) (st : RngState) (htr : 0 ≤ tr)
    (hva : 0 ≤ va) (hte : 0 ≤ te) (hne : ¬(tr = 0 ∧ va = 0 ∧ te = 0)) :
    List.Perm (npPermutation st n).1 (List.range n) ∧
    ((mkSplitIndexer n tr va te).shuffled_indices st).1.training =
      (npPermutation st n).1.take
        (mkSplitIndexer n tr va te).training_num.toNat ∧
    ((mkSplitIndexer n tr va te).shuffled_indices st).1.validation =
      (if (mkSplitIndexer n tr va te).validation_num = 0 then []
       else ((npPermutation st n).1.take
          (n - (mkSplitIndexer n tr va te).testing_num.toNat)).drop
        (mkSplitIndexer n tr va te).training_num.toNat) ∧
    ((mkSplitIndexer n tr va te).shuffled_indices st).1.testing =
      (if (mkSplitIndexer n tr va te).testing_num = 0 then []
       else (npPermutation st n).1.drop
        (n - (mkSplitIndexer n tr va te).testing_num.toNat)) ∧
    ((mkSplitIndexer n tr va te).shuffled_indices st).1.training.Disjoint
      ((mkSplitIndexer n tr va te).shuffled_indices st).1.validation ∧
    ((mkSplitIndexer n tr va te).shuffled_indices st).1.training.Disjoint
      ((mkSplitIndexer n tr va te).shuffled_indices st).1.testing ∧
    ((mkSplitIndexer n tr va te).shuffled_indices st).1.validation.Disjoint
      ((mkSplitIndexer n tr va te).shuffled_indices st).1.testing := by
  have hs := sum_pos_of_not_all_zero tr va te htr hva hte hne
  obtain ⟨h1, h2, h3⟩ := mk_counts_nonneg n tr va te htr hva hte hs
  have hsum := mk_counts_sum_le n tr va te hs
  have hplen : (npPermutation st n).1.length = n := npPermutation_length st n
  have hnd : (npPermutation st n).1.Nodup := npPermutation_nodup st n
  have htrain : ((mkSplitIndexer n tr va te).shuffled_indices st).1.training =
      (npPermutation st n).1.take
        (mkSplitIndexer n tr va te).training_num.toNat := by
    show (mkSplitIndexer n tr va te).select_train_indices
      (npPermutation st n).1 = _
    exact select_train_eq _ _ h1
  have hvalid : ((mkSplitIndexer n tr va te).shuffled_indices st).1.validation =
      (if (mkSplitIndexer n tr va te).validation_num = 0 then []
       else ((npPermutation st n).1.take
          (n - (mkSplitIndexer n tr va te).testing_num.toNat)).drop
        (mkSplitIndexer n tr va te).training_num.toNat) := by
    show (mkSplitIndexer n tr va te).select_validation_indices
      (npPermutation st n).1 = _
    rw [select_validation_eq _ _ h1 h3, hplen]
  have htest : ((mkSplitIndexer n tr va te).shuffled_indices st).1.testing =
      (if (mkSplitIndexer n tr va te).testing_num = 0 then []
       else (npPermutation st n).1.drop
        (n - (mkSplitIndexer n tr va te).testing_num.toNat)) := by
    show (mkSplitIndexer n tr va te).select_testing_indices
      (npPermutation st n).1 = _
    rw [select_testing_eq _ _ h3, hplen]
  have hle : (mkSplitIndexer n tr va te).training_num.toNat ≤
      n - (mkSplitIndexer n tr va te).testing_num.toNat := by
    omega
  refine ⟨npPermutation_perm st n, htrain, hvalid, htest, ?_, ?_, ?_⟩
  · rw [htrain, hvalid]
    by_cases h0 : (mkSplitIndexer n tr va te).validation_num = 0
    · rw [if_pos h0]
      exact list_disjoint_nil_right _
    · rw [if_neg h0]
      intro x hx hy
      exact List.disjoint_take_drop hnd le_rfl hx
        (drop_take_subset_drop _ _ _ hy)
  · rw [htrain, htest]
    by_cases h0 : (mkSplitIndexer n tr va te).testing_num = 0
    · rw [if_pos h0]
      exact list_disjoint_nil_right _
    · rw [if_neg h0]
      exact List.disjoint_take_drop hnd hle
  · rw [hvalid, htest]
    by_cases h0 : (mkSplitIndexer n tr va te).testing_num = 0
    · rw [if_pos h0]
      exact list_disjoint_nil_right _
    · rw [if_neg h0]
      by_cases h0' : (mkSplitIndexer n tr va te).validation_num = 0
      · rw [if_pos h0']
        intro x hx
        exact absurd hx (List.not_mem_nil _)
      · rw [if_neg h0']
        intro x hx hy
        exact List.disjoint_take_drop hnd le_rfl
          (List.drop_subset _ _ hx) hy

/-- Witness for C7 at the concrete input `(10, 1/2, 1/5, 1/5)`, state 3. -/
theorem claim_C7_witness :
    (0 : ℚ) ≤ 1/2 ∧ (0 : ℚ) ≤ 1/5 ∧
      ¬((1/2 : ℚ) = 0 ∧ (1/5 : ℚ) = 0 ∧ (1/5 : ℚ) = 0) ∧
      List.Perm (npPermutation 3 10).1 (List.range 10) ∧
      ((mkSplitIndexer 10 (1/2) (1/5) (1/5)).shuffled_indices 3).1.training.Disjoint
        ((mkSplitIndexer 10 (1/2) (1/5) (1/5)).shuffled_indices 3).1.testing :=
  ⟨by norm_num, by norm_num, by norm_num,
    (claim_C7 10 (1/2) (1/5) (1/5) 3 (by norm_num) (by norm_num) (by norm_num)
      (by norm_num)).1,
    (claim_C7 10 (1/2) (1/5) (1/5) 3 (by norm_num) (by norm_num) (by norm_num)
      (by norm_num)).2.2.2.2.2.1⟩

/-! ## Claim C5 -/

/-- C5 counterexample: with dataset length 10 and weights
`(1/2, 1/5, 1/5)` the floored counts are `(5, 2, 2)` (summing to 9 < 10),
yet the validation sequence returned by `shuffled_indices` (from generator
state 0, whose permutation is `[0, ..., 9]`) is `[5, 6, 7]` — three
entries, not two: the leftover permutation entry `7`, which lies beyond the
first 5 entries, the 2 validation-count entries and the final 2 entries,
appears in a returned sequence instead of remaining unassigned. -/
theorem claim_C5_counterexample :
    (mkSplitIndexer 10 (1/2) (1/5) (1/5)).training_num = 5 ∧
    (mkSplitIndexer 10 (1/2) (1/5) (1/5)).validation_num = 2 ∧
    (mkSplitIndexer 10 (1/2) (1/5) (1/5)).testing_num = 2 ∧
    ((mkSplitIndexer 10 (1/2) (1/5) (1/5)).shuffled_indices 0).1.validation =
      [5, 6, 7] ∧
    7 ∈ ((mkSplitIndexer 10 (1/2) (1/5) (1/5)).shuffled_indices 0).1.validation := by
  have hidx : mkSplitIndexer 10 (1/2) (1/5) (1/5) =
      ⟨10, 5/9, 2/9, 2/9, 5, 2, 2⟩ := by
    norm_num [mkSplitIndexer, unnormalised, SplitIndexer.mk.injEq,
      Int.floor_eq_iff]
  rw [hidx]
  refine ⟨rfl, rfl, rfl, ?_, ?_⟩ <;> decide

/-- C5 amended: leftover permutation indices due to flooring stay out of
all three returned sequences only when `validation_num` is zero; when
`validation_num` is nonzero the validation sequence is the whole middle
block of the permutation, which absorbs the leftover indices. -/
theorem claim_C5_amended (n : Nat) (tr va te : ℚ) (st : RngState)
    (htr : 0 ≤ tr) (hva : 0 ≤ va) (hte : 0 ≤ te)
    (hne : ¬(tr = 0 ∧ va = 0 ∧ te = 0)) :
    ((mkSplitIndexer n tr va te).validation_num = 0 →
      ∀ x ∈ ((npPermutation st n).1.take
          (n - (mkSplitIndexer n tr va te).testing_num.toNat)).drop
        (mkSplitIndexer n tr va te).training_num.toNat,
        x ∉ ((mkSplitIndexer n tr va te).shuffled_indices st).1.training ∧
        x ∉ ((mkSplitIndexer n tr va te).shuffled_indices st).1.validation ∧
        x ∉ ((mkSplitIndexer n tr va te).shuffled_indices st).1.testing) ∧
    ((mkSplitIndexer n tr va te).validation_num ≠ 0 →
      ((mkSplitIndexer n tr va te).shuffled_indices st).1.validation =
        ((npPermutation st n).1.take
          (n - (mkSplitIndexer n tr va te).testing_num.toNat)).drop
        (mkSplitIndexer n tr va te).training_num.toNat) := by
  have hs := sum_pos_of_not_all_zero tr va te htr hva hte hne
  obtain ⟨h1, h2, h3⟩ := mk_counts_nonneg n tr va te htr hva hte hs
  have hplen : (npPermutation st n).1.length = n := npPermutation_length st n
  have hnd : (npPermutation st n).1.Nodup := npPermutation_nodup st n
  have htrain : ((mkSplitIndexer n tr va te).shuffled_indices st).1.training =
      (npPermutation st n).1.take
        (mkSplitIndexer n tr va te).training_num.toNat := by
    show (mkSplitIndexer n tr va te).select_train_indices
      (npPermutation st n).1 = _
    exact select_train_eq _ _ h1
  have hvalid : ((mkSplitIndexer n tr va te).shuffled_indices st).1.validation =
      (if (mkSplitIndexer n tr va te).validation_num = 0 then []
       else ((npPermutation st n).1.take
          (n - (mkSplitIndexer n tr va te).testing_num.toNat)).drop
        (mkSplitIndexer n tr va te).training_num.toNat) := by
    show (mkSplitIndexer n tr va te).select_validation_indices
      (npPermutation st n).1 = _
    rw [select_validation_eq _ _ h1 h3, hplen]
  have htest : ((mkSplitIndexer n tr va te).shuffled_indices st).1.testing =
      (if (mkSplitIndexer n tr va te).testing_num = 0 then []
       else (npPermutation st n).1.drop
        (n - (mkSplitIndexer n tr va te).testing_num.toNat)) := by
    show (mkSplitIndexer n tr va te).select_testing_indices
      (npPermutation st n).1 = _
    rw [select_testing_eq _ _ h3, hplen]
  constructor
  · intro hva0 x hx
    have hxdrop : x ∈ (npPermutation st n).1.drop
        (mkSplitIndexer n tr va te).training_num.toNat :=
      drop_take_subset_drop _ _ _ hx
    have hxtake : x ∈ (npPermutation st n).1.take
        (n - (mkSplitIndexer n tr va te).testing_num.toNat) :=
      List.drop_subset _ _ hx
    refine ⟨?_, ?_, ?_⟩
    · rw [htrain]
      intro hmem
      exact List.disjoint_take_drop hnd le_rfl hmem hxdrop
    · rw [hvalid, if_pos hva0]
      exact List.not_mem_nil x
    · rw [htest]
      by_cases h0 : (mkSplitIndexer n tr va te).testing_num = 0
      · rw [if_pos h0]
        exact List.not_mem_nil x
      · rw [if_neg h0]
        intro hmem
        exact List.disjoint_take_drop hnd le_rfl hxtake hmem
  · intro hva0
    rw [hvalid, if_neg hva0]

/-- Witness for C5 amended at the concrete input `(10, 1/2, 0, 1/5)`,
state 0: counts are `(7, 0, 2)`, the leftover entry `7` of the permutation
`[0, ..., 9]` is in the middle block and ends up in none of the three
returned sequences. -/
theorem claim_C5_amended_witness :
    (0 : ℚ) ≤ 1/2 ∧ (0 : ℚ) ≤ 0 ∧ (0 : ℚ) ≤ 1/5 ∧
      ¬((1/2 : ℚ) = 0 ∧ (0 : ℚ) = 0 ∧ (1/5 : ℚ) = 0) ∧
      (mkSplitIndexer 10 (1/2) 0 (1/5)).validation_num = 0 ∧
      7 ∈ ((npPermutation 0 10).1.take
          (10 - (mkSplitIndexer 10 (1/2) 0 (1/5)).testing_num.toNat)).drop
        (mkSplitIndexer 10 (1/2) 0 (1/5)).training_num.toNat ∧
      (7 ∉ ((mkSplitIndexer 10 (1/2) 0 (1/5)).shuffled_indices 0).1.training ∧
       7 ∉ ((mkSplitIndexer 10 (1/2) 0 (1/5)).shuffled_indices 0).1.validation ∧
       7 ∉ ((mkSplitIndexer 10 (1/2) 0 (1/5)).shuffled_indices 0).1.testing) := by
  have hidx : mkSplitIndexer 10 (1/2) 0 (1/5) = ⟨10, 5/7, 0, 2/7, 7, 0, 2⟩ := by
    norm_num [mkSplitIndexer, unnormalised, SplitIndexer.mk.injEq,
      Int.floor_eq_iff]
  have hva0 : (mkSplitIndexer 10 (1/2) 0 (1/5)).validation_num = 0 := by
    rw [hidx]
  have hmem : 7 ∈ ((npPermutation 0 10).1.take
      (10 - (mkSplitIndexer 10 (1/2) 0 (1/5)).testing_num.toNat)).drop
      (mkSplitIndexer 10 (1/2) 0 (1/5)).training_num.toNat := by
    rw [hidx]
    decide
  exact ⟨by norm_num, le_rfl, by norm_num, by norm_num, hva0, hmem,
    (claim_C5_amended 10 (1/2) 0 (1/5) 0 (by norm_num) le_rfl (by norm_num)
      (by norm_num)).1 hva0 7 hmem⟩

/-! ## Claim C10 -/

theorem assignSplit_ne_training (v t p : ℚ) (h : p < v + t) :
    assignSplit v t p ≠ Split.Training := by
  by_cases ht : p < t
  · simp [assignSplit, h, ht]
  · simp [assignSplit, h, ht]

/-- C10: when `validation_percentage + testing_percentage` exceeds 100,
every item's pseudo-percentage (which never exceeds 100) falls below the
sum, so the training branch is unreachable and every category's training
sequence is empty. -/
theorem claim_C10 (v t : ℚ) (cats : List (List Nat × List (List Nat)))
    (h : 100 < v + t) :
    ∀ (c : List Nat) (r : SplitRecord),
      (c, r) ∈ train_valid_test_split cats v t → r.training = [] := by
  intro c r hmem
  unfold train_valid_test_split at hmem
  obtain ⟨p, _, hp⟩ := List.mem_map.mp hmem
  have hr : r = splitItems v t p.1 p.2 := (congrArg Prod.snd hp).symm
  subst hr
  rw [splitItems_eq_filter]
  show List.filter _ p.2 = []
  rw [List.filter_eq_nil_iff]
  intro a _
  have hlt : percentageHash (bRep p.1 a) < v + t :=
    lt_of_le_of_lt (percentageHash_le_100 _) h
  simp only [beq_iff_eq]
  exact assignSplit_ne_training v t _ hlt

/-- Witness for C10 at `v = 60`, `t = 50` on a one-item category. -/
theorem claim_C10_witness :
    (100 : ℚ) < 60 + 50 ∧ (splitItems 60 50 [97] [[98, 99]]).training = [] :=
  ⟨by norm_num,
    claim_C10 60 50 [([97], [[98, 99]])] (by norm_num) [97]
      (splitItems 60 50 [97] [[98, 99]]) (by simp [train_valid_test_split])⟩

/-! ## Claim C9 -/

/-- C9: `select_split` succeeds — with output keys exactly the input
categories, each mapped to that category's sequence for the target split —
exactly when every category's inner mapping contains the target split, and
raises a `KeyError` when some category's inner mapping lacks it. -/
theorem claim_C9 (data : List (List Nat × List (Split × List (List Nat))))
    (split : Split) :
    ((∀ kv ∈ data, (kv.2.lookup split).isSome) →
      select_split data split =
        PyResult.ok (data.map fun p => (p.1, (p.2.lookup split).getD []))) ∧
    ((∃ kv ∈ data, kv.2.lookup split = none) →
      select_split data split = PyResult.raised) := by
  induction data with
  | nil =>
      refine ⟨fun _ => rfl, fun hex => ?_⟩
      obtain ⟨kv, hm, _⟩ := hex
      exact absurd hm (List.not_mem_nil kv)
  | cons hd rest ih =>
      obtain ⟨k, v⟩ := hd
      constructor
      · intro hall
        have hk : (v.lookup split).isSome :=
          hall (k, v) (List.mem_cons_self _ _)
        obtain ⟨items, hit⟩ := Option.isSome_iff_exists.mp hk
        have hrest := ih.1 fun kv hm => hall kv (List.mem_cons_of_mem _ hm)
        simp only [select_split, hit, hrest, List.map_cons, Option.getD_some]
      · intro hex
        obtain ⟨kv, hm, hnone⟩ := hex
        rcases List.mem_cons.mp hm with heq | hmr
        · have hv : v.lookup split = none := by
            rw [show v = kv.2 from by rw [heq]]
            exact hnone
          simp only [select_split, hv]
        · have hrest := ih.2 ⟨kv, hmr, hnone⟩
          cases hv : v.lookup split <;>
            simp only [select_split, hv, hrest]

/-- Witness for C9: a category mapping with all three splits present
projects successfully, and one lacking the requested split raises. -/
theorem claim_C9_witness :
    (∀ kv ∈ [([99], [(Split.Training, [[97]]), (Split.Validation, []),
        (Split.Testing, [])])],
      ((kv.2 : List (Split × List (List Nat))).lookup Split.Training).isSome) ∧
    select_split [([99], [(Split.Training, [[97]]), (Split.Validation, []),
        (Split.Testing, [])])] Split.Training =
      PyResult.ok ([([99], [(Split.Training, [[97]]), (Split.Validation, []),
        (Split.Testing, [])])].map fun p =>
          (p.1, (p.2.lookup Split.Training).getD [])) ∧
    (∃ kv ∈ [([99], [(Split.Training, ([] : List (List Nat)))])],
      kv.2.lookup Split.Validation = none) ∧
    select_split [([99], [(Split.Training, ([] : List (List Nat)))])]
      Split.Validation = PyResult.raised :=
  ⟨by decide,
    (claim_C9 [([99], [(Split.Training, [[97]]), (Split.Validation, []),
        (Split.Testing, [])])] Split.Training).1 (by decide),
    ⟨([99], [(Split.Training, [])]), by simp, rfl⟩,
    (claim_C9 [([99], [(Split.Training, ([] : List (List Nat)))])]
        Split.Validation).2
      ⟨([99], [(Split.Training, [])]), by simp, rfl⟩⟩

/-! ## Digest evaluations used by the hash-splitter claims

The residues below are the values of
`int(hashlib.sha1(b).hexdigest(), 16) % (sys.maxsize + 1)` for the byte
strings `"_nohash"`, `""`, `"x"` and `"x_nohash_1"`, computed by the SHA-1
model and checked by the kernel. -/

theorem pct_val_nohash7 :
    percentageHash [95, 110, 111, 104, 97, 115, 104] =
      (8849752035608044779 : ℚ) * (100 / 9223372036854775807) :=
  percentageHash_eval _ _ (by decide)

theorem pct_val_nil :
    percentageHash [] =
      (1540258082265237257 : ℚ) * (100 / 9223372036854775807) :=
  percentageHash_eval _ _ (by decide)

theorem pct_val_x :
    percentageHash [120] =
      (4274308586929922162 : ℚ) * (100 / 9223372036854775807) :=
  percentageHash_eval _ _ (by decide)

theorem pct_val_xnohash1 :
    percentageHash [120, 95, 110, 111, 104, 97, 115, 104, 95, 49] =
      (4425743317728198993 : ℚ) * (100 / 9223372036854775807) :=
  percentageHash_eval _ _ (by decide)

/-! ## Claim C1 -/

/-- C1 counterexample: the category `"_nohas"` (bytes
`[95, 110, 111, 104, 97, 115]`) with items `"h"` and `"h_nohash_1"`.  Both
names strip to `"h"`, yet with `validation_percentage = 50`,
`testing_percentage = 0` the code assigns `"h"` to Training (it hashes
`"_nohash"`, the stripped concatenation, pseudo-percentage ≈ 95.9) and
`"h_nohash_1"` to Validation (the concatenation `"_nohash_nohash_1"`
strips to `""`, pseudo-percentage ≈ 16.7): the assignment is not a
function of (category, stripped name, thresholds). -/
theorem claim_C1_counterexample :
    stripNohash [104] =
      stripNohash [104, 95, 110, 111, 104, 97, 115, 104, 95, 49] ∧
    train_valid_test_split [([95, 110, 111, 104, 97, 115], [[104]])] 50 0 =
      [([95, 110, 111, 104, 97, 115],
        ⟨[[104]], [], []⟩)] ∧
    train_valid_test_split
        [([95, 110, 111, 104, 97, 115],
          [[104, 95, 110, 111, 104, 97, 115, 104, 95, 49]])] 50 0 =
      [([95, 110, 111, 104, 97, 115],
        ⟨[], [[104, 95, 110, 111, 104, 97, 115, 104, 95, 49]], []⟩)] := by
  have hb1 : bRep [95, 110, 111, 104, 97, 115] [104] =
      [95, 110, 111, 104, 97, 115, 104] := by decide
  have hb2 : bRep [95, 110, 111, 104, 97, 115]
      [104, 95, 110, 111, 104, 97, 115, 104, 95, 49] = [] := by decide
  have e1 : splitItems 50 0 [95, 110, 111, 104, 97, 115] [[104]] =
      ⟨[[104]], [], []⟩ := by
    simp only [splitItems]
    rw [hb1, pct_val_nohash7, if_neg (by norm_num)]
  have e2 : splitItems 50 0 [95, 110, 111, 104, 97, 115]
      [[104, 95, 110, 111, 104, 97, 115, 104, 95, 49]] =
      ⟨[], [[104, 95, 110, 111, 104, 97, 115, 104, 95, 49]], []⟩ := by
    simp only [splitItems]
    rw [hb2, pct_val_nil, if_pos (by norm_num), if_neg (by norm_num)]
  exact ⟨by decide, by simp [train_valid_test_split, e1],
    by simp [train_valid_test_split, e2]⟩

/-- C1 amended: the assignment is a pure function of the category, the
thresholds, and the `_nohash_`-stripped *concatenation* of category and
item name (equivalently, of the stripped name whenever no `_nohash_`
occurrence spans the category–name boundary).  The derived guarantees
hold: membership of an item in a split list is determined by the item
alone, extending a category's item list preserves every existing
assignment, and two names differing only after a `_nohash_` marker land in
the same split. -/
theorem claim_C1_amended :
    (∀ (v t : ℚ) (c x : List Nat) (l : List (List Nat)),
      (x ∈ (splitItems v t c l).training ↔
        x ∈ l ∧ assignSplit v t (percentageHash (bRep c x)) = Split.Training) ∧
      (x ∈ (splitItems v t c l).validation ↔
        x ∈ l ∧
          assignSplit v t (percentageHash (bRep c x)) = Split.Validation) ∧
      (x ∈ (splitItems v t c l).testing ↔
        x ∈ l ∧ assignSplit v t (percentageHash (bRep c x)) = Split.Testing)) ∧
    (∀ (v t : ℚ) (c n1 n2 : List Nat),
      stripNohash (c ++ n1) = stripNohash (c ++ n2) →
      assignSplit v t (percentageHash (bRep c n1)) =
        assignSplit v t (percentageHash (bRep c n2))) ∧
    (∀ (v t : ℚ) (c x : List Nat) (l extra : List (List Nat)),
      (x ∈ (splitItems v t c l).training →
        x ∈ (splitItems v t c (l ++ extra)).training) ∧
      (x ∈ (splitItems v t c l).validation →
        x ∈ (splitItems v t c (l ++ extra)).validation) ∧
      (x ∈ (splitItems v t c l).testing →
        x ∈ (splitItems v t c (l ++ extra)).testing)) ∧
    (∀ (v t : ℚ) (c s u1 u2 : List Nat),
      assignSplit v t (percentageHash (bRep c (s ++ nohashPat ++ u1))) =
        assignSplit v t (percentageHash (bRep c (s ++ nohashPat ++ u2)))) := by
  refine ⟨?_, ?_, ?_, ?_⟩
  · intro v t c x l
    exact ⟨mem_splitItems_training v t c x l,
      mem_splitItems_validation v t c x l, mem_splitItems_testing v t c x l⟩
  · intro v t c n1 n2 h
    unfold bRep
    rw [h]
  · intro v t c x l extra
    refine ⟨?_, ?_, ?_⟩
    · rw [mem_splitItems_training, mem_splitItems_training]
      rintro ⟨hx, ha⟩
      exact ⟨List.mem_append_left _ hx, ha⟩
    · rw [mem_splitItems_validation, mem_splitItems_validation]
      rintro ⟨hx, ha⟩
      exact ⟨List.mem_append_left _ hx, ha⟩
    · rw [mem_splitItems_testing, mem_splitItems_testing]
      rintro ⟨hx, ha⟩
      exact ⟨List.mem_append_left _ hx, ha⟩
  · intro v t c s u1 u2
    unfold bRep
    rw [show c ++ (s ++ nohashPat ++ u1) = (c ++ s) ++ (nohashPat ++ u1) from
        by simp [List.append_assoc],
      show c ++ (s ++ nohashPat ++ u2) = (c ++ s) ++ (nohashPat ++ u2) from
        by simp [List.append_assoc],
      stripNohash_indep]

/-- Witness for C1 amended: suffix-equivalent names `"a_nohash_1"` and
`"a_nohash_2"` in category `"c"` get equal assignments, and the item `"h"`
of category `"_nohas"` stays in Training when the category is extended. -/
theorem claim_C1_amended_witness :
    stripNohash ([99] ++ [97, 95, 110, 111, 104, 97, 115, 104, 95, 49]) =
      stripNohash ([99] ++ [97, 95, 110, 111, 104, 97, 115, 104, 95, 50]) ∧
    assignSplit 50 0
        (percentageHash (bRep [99] [97, 95, 110, 111, 104, 97, 115, 104, 95, 49])) =
      assignSplit 50 0
        (percentageHash (bRep [99] [97, 95, 110, 111, 104, 97, 115, 104, 95, 50])) ∧
    [104] ∈ (splitItems 50 0 [95, 110, 111, 104, 97, 115] [[104]]).training ∧
    [104] ∈ (splitItems 50 0 [95, 110, 111, 104, 97, 115]
      ([[104]] ++ [[105]])).training := by
  have hstrip : stripNohash ([99] ++ [97, 95, 110, 111, 104, 97, 115, 104, 95, 49]) =
      stripNohash ([99] ++ [97, 95, 110, 111, 104, 97, 115, 104, 95, 50]) := by
    decide
  have hassign : assignSplit 50 0
      (percentageHash (bRep [95, 110, 111, 104, 97, 115] [104])) =
      Split.Training := by
    rw [show bRep [95, 110, 111, 104, 97, 115] [104] =
        [95, 110, 111, 104, 97, 115, 104] from by decide, pct_val_nohash7]
    unfold assignSplit
    rw [if_neg (by norm_num)]
  have hmem : [104] ∈
      (splitItems 50 0 [95, 110, 111, 104, 97, 115] [[104]]).training :=
    (claim_C1_amended.1 50 0 [95, 110, 111, 104, 97, 115] [104] [[104]]).1.mpr
      ⟨by simp, hassign⟩
  exact ⟨hstrip, claim_C1_amended.2.1 50 0 [99] _ _ hstrip, hmem,
    (claim_C1_amended.2.2.1 50 0 [95, 110, 111, 104, 97, 115] [104] [[104]]
      [[105]]).1 hmem⟩

/-! ## Claim C2 -/

/-- Assignment procedure exactly as claim C2 words it: SHA-1 of the UTF-8
bytes of the category label concatenated with the *stripped item name*,
scaled to a pseudo-percentage, then Testing below `testing_percentage`,
Validation below `validation_percentage + testing_percentage`, Training
otherwise. -/
def claimAssignC2 (validationPercentage testingPercentage : ℚ)
    (c n : List Nat) : Split :=
  if percentageHash (c ++ stripNohash n) < testingPercentage then Split.Testing
  else if percentageHash (c ++ stripNohash n) <
      validationPercentage + testingPercentage then Split.Validation
  else Split.Training

/-- Assignment procedure of claim C2 with the one forced correction: the
stripping is applied to the concatenation of category label and item name,
not to the name alone. -/
def specAssignHash (validationPercentage testingPercentage : ℚ)
    (c n : List Nat) : Split :=
  if percentageHash (stripNohash (c ++ n)) < testingPercentage then
    Split.Testing
  else if percentageHash (stripNohash (c ++ n)) <
      validationPercentage + testingPercentage then Split.Validation
  else Split.Training

/-- With a non-negative validation percentage the spec's three-way
threshold test agrees with the source's nested conditionals. -/
theorem specAssignHash_eq_assign (v t : ℚ) (hv : 0 ≤ v) (c n : List Nat) :
    specAssignHash v t c n = assignSplit v t (percentageHash (bRep c n)) := by
  unfold specAssignHash assignSplit bRep
  by_cases h1 : percentageHash (stripNohash (c ++ n)) < t
  · rw [if_pos h1, if_pos (by linarith), if_pos h1]
  · by_cases h2 : percentageHash (stripNohash (c ++ n)) < v + t
    · rw [if_neg h1, if_pos h2, if_pos h2, if_neg h1]
    · rw [if_neg h1, if_neg h2, if_neg h2]

/-- C2 counterexample: category `"x_nohash"` with item `"_1"` at
`validation_percentage = 47`, `testing_percentage = 0`.  The code strips
the concatenation `"x_nohash_1"` down to `"x"` (pseudo-percentage ≈ 46.3)
and assigns Validation, while the procedure described by the claim hashes
`"x_nohash" + "_1"` (the name strips to itself, pseudo-percentage ≈ 48.0)
and yields Training. -/
theorem claim_C2_counterexample :
    train_valid_test_split
        [([120, 95, 110, 111, 104, 97, 115, 104], [[95, 49]])] 47 0 =
      [([120, 95, 110, 111, 104, 97, 115, 104], ⟨[], [[95, 49]], []⟩)] ∧
    claimAssignC2 47 0 [120, 95, 110, 111, 104, 97, 115, 104] [95, 49] =
      Split.Training := by
  have hb : bRep [120, 95, 110, 111, 104, 97, 115, 104] [95, 49] = [120] := by
    decide
  have e : splitItems 47 0 [120, 95, 110, 111, 104, 97, 115, 104] [[95, 49]] =
      ⟨[], [[95, 49]], []⟩ := by
    simp only [splitItems]
    rw [hb, pct_val_x, if_pos (by norm_num), if_neg (by norm_num)]
  constructor
  · simp [train_valid_test_split, e]
  · unfold claimAssignC2
    rw [show [120, 95, 110, 111, 104, 97, 115, 104] ++ stripNohash [95, 49] =
        [120, 95, 110, 111, 104, 97, 115, 104, 95, 49] from by decide,
      pct_val_xnohash1, if_neg (by norm_num), if_neg (by norm_num)]

/-- C2 amended: with the stripping applied to the concatenation (and the
contractual non-negative validation percentage), `train_valid_test_split`
assigns every item by exactly the claim's procedure — each category maps
to the three filters of its item list by the three-way threshold test —
and every item of a category lands in exactly one of the three lists. -/
theorem claim_C2_amended :
    (∀ (v t : ℚ), 0 ≤ v → ∀ (cats : List (List Nat × List (List Nat))),
      train_valid_test_split cats v t = cats.map fun p =>
        (p.1,
         ⟨p.2.filter fun n => specAssignHash v t p.1 n == Split.Training,
          p.2.filter fun n => specAssignHash v t p.1 n == Split.Validation,
          p.2.filter fun n => specAssignHash v t p.1 n == Split.Testing⟩)) ∧
    (∀ (v t : ℚ) (c x : List Nat) (l : List (List Nat)), x ∈ l →
      (x ∈ (splitItems v t c l).training ∧
        x ∉ (splitItems v t c l).validation ∧
        x ∉ (splitItems v t c l).testing) ∨
      (x ∉ (splitItems v t c l).training ∧
        x ∈ (splitItems v t c l).validation ∧
        x ∉ (splitItems v t c l).testing) ∨
      (x ∉ (splitItems v t c l).training ∧
        x ∉ (splitItems v t c l).validation ∧
        x ∈ (splitItems v t c l).testing)) := by
  constructor
  · intro v t hv cats
    have hfun : ∀ (c : List Nat) (l : List (List Nat)),
        splitItems v t c l =
          ⟨l.filter fun n => specAssignHash v t c n == Split.Training,
           l.filter fun n => specAssignHash v t c n == Split.Validation,
           l.filter fun n => specAssignHash v t c n == Split.Testing⟩ := by
      intro c l
      rw [splitItems_eq_filter]
      rw [List.filter_congr
          (fun a _ => by rw [specAssignHash_eq_assign v t hv c a] :
            ∀ a ∈ l, ((assignSplit v t (percentageHash (bRep c a)) ==
              Split.Training)) = (specAssignHash v t c a == Split.Training)),
        List.filter_congr
          (fun a _ => by rw [specAssignHash_eq_assign v t hv c a] :
            ∀ a ∈ l, ((assignSplit v t (percentageHash (bRep c a)) ==
              Split.Validation)) = (specAssignHash v t c a == Split.Validation)),
        List.filter_congr
          (fun a _ => by rw [specAssignHash_eq_assign v t hv c a] :
            ∀ a ∈ l, ((assignSplit v t (percentageHash (bRep c a)) ==
              Split.Testing)) = (specAssignHash v t c a == Split.Testing))]
    unfold train_valid_test_split
    exact List.map_congr_left fun p _ => by rw [hfun p.1 p.2]
  · intro v t c x l hx
    cases hA : assignSplit v t (percentageHash (bRep c x)) with
    | Training =>
        left
        simp [mem_splitItems_training, mem_splitItems_validation,
          mem_splitItems_testing, hA, hx]
    | Validation =>
        right; left
        simp [mem_splitItems_training, mem_splitItems_validation,
          mem_splitItems_testing, hA, hx]
    | Testing =>
        right; right
        simp [mem_splitItems_training, mem_splitItems_validation,
          mem_splitItems_testing, hA, hx]

/-- Witness for C2 amended on a one-category, one-item input. -/
theorem claim_C2_amended_witness :
    (0 : ℚ) ≤ 15 ∧
    train_valid_test_split [([97], [[98]])] 15 0 =
      [([97], [[98]])].map (fun p =>
        (p.1,
         ⟨p.2.filter fun n => specAssignHash 15 0 p.1 n == Split.Training,
          p.2.filter fun n => specAssignHash 15 0 p.1 n == Split.Validation,
          p.2.filter fun n => specAssignHash 15 0 p.1 n == Split.Testing⟩)) ∧
    [98] ∈ [[98]] ∧
    ((([98] : List Nat) ∈ (splitItems 15 0 [97] [[98]]).training ∧
        ([98] : List Nat) ∉ (splitItems 15 0 [97] [[98]]).validation ∧
        ([98] : List Nat) ∉ (splitItems 15 0 [97] [[98]]).testing) ∨
      (([98] : List Nat) ∉ (splitItems 15 0 [97] [[98]]).training ∧
        ([98] : List Nat) ∈ (splitItems 15 0 [97] [[98]]).validation ∧
        ([98] : List Nat) ∉ (splitItems 15 0 [97] [[98]]).testing) ∨
      (([98] : List Nat) ∉ (splitItems 15 0 [97] [[98]]).training ∧
        ([98] : List Nat) ∉ (splitItems 15 0 [97] [[98]]).validation ∧
        ([98] : List Nat) ∈ (splitItems 15 0 [97] [[98]]).testing)) :=
  ⟨by norm_num, claim_C2_amended.1 15 0 (by norm_num) [([97], [[98]])],
    by simp, claim_C2_amended.2 15 0 [97] [98] [[98]] (by simp)⟩

end Draugr
